import Mathlib

set_option maxRecDepth 100000
set_option maxHeartbeats 2000000

/-!
Verification of the gotp repository: a shallow embedding of its
TOTP/HOTP/HMAC engine, Base32 codec, AES key handling, vault storage,
backup rotation and session cache, with theorems settling the spec claims.

Bytes are modelled as `List Nat` with every element below 256; machine
words are `Nat` reduced modulo `2^32` or `2^64` where the Go code uses
`uint32`/`uint64`.
-/

namespace Gotp

/-- `2^32`, the modulus of Go's `uint32` arithmetic. -/
def M32 : Nat := 4294967296

/-- `2^64`, the modulus of Go's `uint64` arithmetic. -/
def M64 : Nat := 18446744073709551616

/-- 32-bit rotate left by `n` (0 < n < 32), as used by SHA-1. -/
def rotl32 (n x : Nat) : Nat := (((x <<< n) % M32) ||| (x >>> (32 - n)))

/-- 32-bit rotate right by `n` (0 < n < 32), as used by SHA-256. -/
def rotr32 (n x : Nat) : Nat := ((x >>> n) ||| ((x <<< (32 - n)) % M32))

/-- 64-bit rotate right by `n` (0 < n < 64), as used by SHA-512. -/
def rotr64 (n x : Nat) : Nat := ((x >>> n) ||| ((x <<< (64 - n)) % M64))

/-- Big-endian bytes of a 32-bit word. -/
def u32be (n : Nat) : List Nat :=
  [(n >>> 24) &&& 255, (n >>> 16) &&& 255, (n >>> 8) &&& 255, n &&& 255]

/-- Big-endian bytes of a 64-bit word. -/
def u64be (n : Nat) : List Nat := u32be ((n >>> 32) % M32) ++ u32be (n % M32)

/-- Combine a list of bytes big-endian into a natural number. -/
def beWord (bs : List Nat) : Nat := bs.foldl (fun acc b => acc * 256 + b) 0

/-- Fuel-driven worker for `chunkList` (structural recursion so that the
kernel can evaluate it; the fuel is always at least the list length). -/
def chunkGo (n : Nat) : Nat → List Nat → List (List Nat)
  | 0, _ => []
  | fuel + 1, bs => if bs = [] ∨ n = 0 then [] else bs.take n :: chunkGo n fuel (bs.drop n)

/-- Split a byte list into chunks of `n` bytes (the final chunk may be short). -/
def chunkList (n : Nat) (bs : List Nat) : List (List Nat) := chunkGo n bs.length bs

/-- SHA-1/SHA-256 message padding: append `128`, zeros and the 64-bit
big-endian bit length so the total length is a multiple of 64 bytes. -/
def pad64 (msg : List Nat) : List Nat :=
  let L := msg.length
  let k := (119 - (L % 64)) % 64
  msg ++ (128 :: List.replicate k 0) ++ u64be ((8 * L) % M64)

/-- SHA-512 message padding: append `128`, zeros and the 128-bit
big-endian bit length so the total length is a multiple of 128 bytes
(messages here are far below `2^64` bits, so the upper half is zero). -/
def pad128 (msg : List Nat) : List Nat :=
  let L := msg.length
  let k := (239 - (L % 128)) % 128
  msg ++ (128 :: List.replicate k 0) ++ (List.replicate 8 0 ++ u64be ((8 * L) % M64))

/-- The running state of SHA-1: five 32-bit words. -/
structure Sha1State where
  h0 : Nat
  h1 : Nat
  h2 : Nat
  h3 : Nat
  h4 : Nat

/-- SHA-1 initial state (FIPS 180-4). -/
def sha1Init : Sha1State := ⟨1732584193, 4023233417, 2562383102, 271733878, 3285377520⟩

/-- The 80-word SHA-1 message schedule, generated by a sliding window of
the last 16 words (`x0` is `w[i-16]`, `x15` is `w[i-1]`). -/
def sha1Window : Nat → Nat → Nat → Nat → Nat → Nat → Nat → Nat → Nat → Nat →
    Nat → Nat → Nat → Nat → Nat → Nat → Nat → List Nat
  | 0, _, _, _, _, _, _, _, _, _, _, _, _, _, _, _, _ => []
  | fuel + 1, x0, x1, x2, x3, x4, x5, x6, x7, x8, x9, x10, x11, x12, x13, x14, x15 =>
    x0 :: sha1Window fuel x1 x2 x3 x4 x5 x6 x7 x8 x9 x10 x11 x12 x13 x14 x15
      (rotl32 1 (x13 ^^^ x8 ^^^ x2 ^^^ x0))
termination_by structural fuel => fuel

/-- Expand the 16 message words of a SHA-1 block to the 80-word schedule. -/
def sha1Schedule (block : List Nat) : List Nat :=
  let w := (chunkList 4 block).map beWord
  sha1Window 80 (w.getD 0 0) (w.getD 1 0) (w.getD 2 0) (w.getD 3 0)
    (w.getD 4 0) (w.getD 5 0) (w.getD 6 0) (w.getD 7 0)
    (w.getD 8 0) (w.getD 9 0) (w.getD 10 0) (w.getD 11 0)
    (w.getD 12 0) (w.getD 13 0) (w.getD 14 0) (w.getD 15 0)

/-- One SHA-1 round: mixes schedule word `w` (round index `i`) into the state. -/
def sha1Round (i w : Nat) (s : Sha1State) : Sha1State :=
  let f :=
    if i < 20 then (s.h1 &&& s.h2) ||| ((s.h1 ^^^ 4294967295) &&& s.h3)
    else if i < 40 then s.h1 ^^^ s.h2 ^^^ s.h3
    else if i < 60 then (s.h1 &&& s.h2) ||| (s.h1 &&& s.h3) ||| (s.h2 &&& s.h3)
    else s.h1 ^^^ s.h2 ^^^ s.h3
  let k :=
    if i < 20 then 1518500249
    else if i < 40 then 1859775393
    else if i < 60 then 2400959708
    else 3395469782
  let temp := (rotl32 5 s.h0 + f + s.h4 + k + w) % M32
  ⟨temp, s.h0, rotl32 30 s.h1, s.h2, s.h3⟩

/-- Run the SHA-1 rounds over the schedule, keeping the round index. -/
def sha1Rounds (i : Nat) (ws : List Nat) (s : Sha1State) : Sha1State :=
  match ws with
  | [] => s
  | w :: rest => sha1Rounds (i + 1) rest (sha1Round i w s)

/-- SHA-1 compression of one 64-byte block into the chaining state. -/
def sha1Compress (s : Sha1State) (block : List Nat) : Sha1State :=
  let t := sha1Rounds 0 (sha1Schedule block) s
  ⟨(s.h0 + t.h0) % M32, (s.h1 + t.h1) % M32, (s.h2 + t.h2) % M32,
   (s.h3 + t.h3) % M32, (s.h4 + t.h4) % M32⟩

/-- SHA-1 digest of a byte list: 20 bytes. -/
def sha1 (msg : List Nat) : List Nat :=
  let s := (chunkList 64 (pad64 msg)).foldl sha1Compress sha1Init
  u32be s.h0 ++ u32be s.h1 ++ u32be s.h2 ++ u32be s.h3 ++ u32be s.h4

/-- The running state of SHA-256 / SHA-512: eight words. -/
structure Sha2State where
  a : Nat
  b : Nat
  c : Nat
  d : Nat
  e : Nat
  f : Nat
  g : Nat
  h : Nat

/-- SHA-256 initial state (FIPS 180-4). -/
def sha256Init : Sha2State :=
  ⟨1779033703, 3144134277, 1013904242, 2773480762,
   1359893119, 2600822924, 528734635, 1541459225⟩

/-- The 64 SHA-256 round constants (FIPS 180-4). -/
def k256 : List Nat :=
  [1116352408, 1899447441, 3049323471, 3921009573, 961987163, 1508970993, 2453635748, 2870763221,
   3624381080, 310598401, 607225278, 1426881987, 1925078388, 2162078206, 2614888103, 3248222580,
   3835390401, 4022224774, 264347078, 604807628, 770255983, 1249150122, 1555081692, 1996064986,
   2554220882, 2821834349, 2952996808, 3210313671, 3336571891, 3584528711, 113926993, 338241895,
   666307205, 773529912, 1294757372, 1396182291, 1695183700, 1986661051, 2177026350, 2456956037,
   2730485921, 2820302411, 3259730800, 3345764771, 3516065817, 3600352804, 4094571909, 275423344,
   430227734, 506948616, 659060556, 883997877, 958139571, 1322822218, 1537002063, 1747873779,
   1955562222, 2024104815, 2227730452, 2361852424, 2428436474, 2756734187, 3204031479, 3329325298]

/-- The SHA-256 message schedule, generated by a sliding window of the
last 16 words (`x0` is `w[i-16]`, `x15` is `w[i-1]`). -/
def sha256Window : Nat → Nat → Nat → Nat → Nat → Nat → Nat → Nat → Nat → Nat →
    Nat → Nat → Nat → Nat → Nat → Nat → Nat → List Nat
  | 0, _, _, _, _, _, _, _, _, _, _, _, _, _, _, _, _ => []
  | fuel + 1, x0, x1, x2, x3, x4, x5, x6, x7, x8, x9, x10, x11, x12, x13, x14, x15 =>
    let s0 := rotr32 7 x1 ^^^ rotr32 18 x1 ^^^ (x1 >>> 3)
    let s1 := rotr32 17 x14 ^^^ rotr32 19 x14 ^^^ (x14 >>> 10)
    x0 :: sha256Window fuel x1 x2 x3 x4 x5 x6 x7 x8 x9 x10 x11 x12 x13 x14 x15
      ((x0 + s0 + x9 + s1) % M32)
termination_by structural fuel => fuel

/-- Expand the 16 message words of a SHA-256 block to the 64-word schedule. -/
def sha256Schedule (block : List Nat) : List Nat :=
  let w := (chunkList 4 block).map beWord
  sha256Window 64 (w.getD 0 0) (w.getD 1 0) (w.getD 2 0) (w.getD 3 0)
    (w.getD 4 0) (w.getD 5 0) (w.getD 6 0) (w.getD 7 0)
    (w.getD 8 0) (w.getD 9 0) (w.getD 10 0) (w.getD 11 0)
    (w.getD 12 0) (w.getD 13 0) (w.getD 14 0) (w.getD 15 0)

/-- One SHA-256 round with round constant `k` and schedule word `w`. -/
def sha256Round (k w : Nat) (s : Sha2State) : Sha2State :=
  let s1 := rotr32 6 s.e ^^^ rotr32 11 s.e ^^^ rotr32 25 s.e
  let ch := (s.e &&& s.f) ^^^ ((s.e ^^^ 4294967295) &&& s.g)
  let t1 := (s.h + s1 + ch + k + w) % M32
  let s0 := rotr32 2 s.a ^^^ rotr32 13 s.a ^^^ rotr32 22 s.a
  let maj := (s.a &&& s.b) ^^^ (s.a &&& s.c) ^^^ (s.b &&& s.c)
  let t2 := (s0 + maj) % M32
  ⟨(t1 + t2) % M32, s.a, s.b, s.c, (s.d + t1) % M32, s.e, s.f, s.g⟩

/-- Run SHA-256 rounds over paired constant and schedule lists. -/
def sha256Rounds : List Nat → List Nat → Sha2State → Sha2State
  | k :: ks, w :: ws, s => sha256Rounds ks ws (sha256Round k w s)
  | _, _, s => s

/-- SHA-256 compression of one 64-byte block into the chaining state. -/
def sha256Compress (s : Sha2State) (block : List Nat) : Sha2State :=
  let t := sha256Rounds k256 (sha256Schedule block) s
  ⟨(s.a + t.a) % M32, (s.b + t.b) % M32, (s.c + t.c) % M32, (s.d + t.d) % M32,
   (s.e + t.e) % M32, (s.f + t.f) % M32, (s.g + t.g) % M32, (s.h + t.h) % M32⟩

/-- SHA-256 digest of a byte list: 32 bytes. -/
def sha256 (msg : List Nat) : List Nat :=
  let s := (chunkList 64 (pad64 msg)).foldl sha256Compress sha256Init
  u32be s.a ++ u32be s.b ++ u32be s.c ++ u32be s.d ++
  u32be s.e ++ u32be s.f ++ u32be s.g ++ u32be s.h

/-- SHA-512 initial state (FIPS 180-4). -/
def sha512Init : Sha2State :=
  ⟨7640891576956012808, 13503953896175478587, 4354685564936845355, 11912009170470909681,
   5840696475078001361, 11170449401992604703, 2270897969802886507, 6620516959819538809⟩

/-- The 80 SHA-512 round constants (FIPS 180-4). -/
def k512 : List Nat :=
  [4794697086780616226, 8158064640168781261, 13096744586834688815, 16840607885511220156,
   4131703408338449720, 6480981068601479193, 10538285296894168987, 12329834152419229976,
   15566598209576043074, 1334009975649890238, 2608012711638119052, 6128411473006802146,
   8268148722764581231, 9286055187155687089, 11230858885718282805, 13951009754708518548,
   16472876342353939154, 17275323862435702243, 1135362057144423861, 2597628984639134821,
   3308224258029322869, 5365058923640841347, 6679025012923562964, 8573033837759648693,
   10970295158949994411, 12119686244451234320, 12683024718118986047, 13788192230050041572,
   14330467153632333762, 15395433587784984357, 489312712824947311, 1452737877330783856,
   2861767655752347644, 3322285676063803686, 5560940570517711597, 5996557281743188959,
   7280758554555802590, 8532644243296465576, 9350256976987008742, 10552545826968843579,
   11727347734174303076, 12113106623233404929, 14000437183269869457, 14369950271660146224,
   15101387698204529176, 15463397548674623760, 17586052441742319658, 1182934255886127544,
   1847814050463011016, 2177327727835720531, 2830643537854262169, 3796741975233480872,
   4115178125766777443, 5681478168544905931, 6601373596472566643, 7507060721942968483,
   8399075790359081724, 8693463985226723168, 9568029438360202098, 10144078919501101548,
   10430055236837252648, 11840083180663258601, 13761210420658862357, 14299343276471374635,
   14566680578165727644, 15097957966210449927, 16922976911328602910, 17689382322260857208,
   500013540394364858, 748580250866718886, 1242879168328830382, 1977374033974150939,
   2944078676154940804, 3659926193048069267, 4368137639120453308, 4836135668995329356,
   5532061633213252278, 6448918945643986474, 6902733635092675308, 7801388544844847127]

/-- The SHA-512 message schedule, generated by a sliding window of the
last 16 words (`x0` is `w[i-16]`, `x15` is `w[i-1]`). -/
def sha512Window : Nat → Nat → Nat → Nat → Nat → Nat → Nat → Nat → Nat → Nat →
    Nat → Nat → Nat → Nat → Nat → Nat → Nat → List Nat
  | 0, _, _, _, _, _, _, _, _, _, _, _, _, _, _, _, _ => []
  | fuel + 1, x0, x1, x2, x3, x4, x5, x6, x7, x8, x9, x10, x11, x12, x13, x14, x15 =>
    let s0 := rotr64 1 x1 ^^^ rotr64 8 x1 ^^^ (x1 >>> 7)
    let s1 := rotr64 19 x14 ^^^ rotr64 61 x14 ^^^ (x14 >>> 6)
    x0 :: sha512Window fuel x1 x2 x3 x4 x5 x6 x7 x8 x9 x10 x11 x12 x13 x14 x15
      ((x0 + s0 + x9 + s1) % M64)
termination_by structural fuel => fuel

/-- Expand the 16 message words of a SHA-512 block to the 80-word schedule. -/
def sha512Schedule (block : List Nat) : List Nat :=
  let w := (chunkList 8 block).map beWord
  sha512Window 80 (w.getD 0 0) (w.getD 1 0) (w.getD 2 0) (w.getD 3 0)
    (w.getD 4 0) (w.getD 5 0) (w.getD 6 0) (w.getD 7 0)
    (w.getD 8 0) (w.getD 9 0) (w.getD 10 0) (w.getD 11 0)
    (w.getD 12 0) (w.getD 13 0) (w.getD 14 0) (w.getD 15 0)

/-- One SHA-512 round with round constant `k` and schedule word `w`. -/
def sha512Round (k w : Nat) (s : Sha2State) : Sha2State :=
  let s1 := rotr64 14 s.e ^^^ rotr64 18 s.e ^^^ rotr64 41 s.e
  let ch := (s.e &&& s.f) ^^^ ((s.e ^^^ 18446744073709551615) &&& s.g)
  let t1 := (s.h + s1 + ch + k + w) % M64
  let s0 := rotr64 28 s.a ^^^ rotr64 34 s.a ^^^ rotr64 39 s.a
  let maj := (s.a &&& s.b) ^^^ (s.a &&& s.c) ^^^ (s.b &&& s.c)
  let t2 := (s0 + maj) % M64
  ⟨(t1 + t2) % M64, s.a, s.b, s.c, (s.d + t1) % M64, s.e, s.f, s.g⟩

/-- Run SHA-512 rounds over paired constant and schedule lists. -/
def sha512Rounds : List Nat → List Nat → Sha2State → Sha2State
  | k :: ks, w :: ws, s => sha512Rounds ks ws (sha512Round k w s)
  | _, _, s => s

/-- Big-endian bytes of a 64-bit word rendered directly. -/
def u64be8 (n : Nat) : List Nat :=
  [(n >>> 56) &&& 255, (n >>> 48) &&& 255, (n >>> 40) &&& 255, (n >>> 32) &&& 255,
   (n >>> 24) &&& 255, (n >>> 16) &&& 255, (n >>> 8) &&& 255, n &&& 255]

/-- SHA-512 compression of one 128-byte block into the chaining state. -/
def sha512Compress (s : Sha2State) (block : List Nat) : Sha2State :=
  let t := sha512Rounds k512 (sha512Schedule block) s
  ⟨(s.a + t.a) % M64, (s.b + t.b) % M64, (s.c + t.c) % M64, (s.d + t.d) % M64,
   (s.e + t.e) % M64, (s.f + t.f) % M64, (s.g + t.g) % M64, (s.h + t.h) % M64⟩

/-- SHA-512 digest of a byte list: 64 bytes. -/
def sha512 (msg : List Nat) : List Nat :=
  let s := (chunkList 128 (pad128 msg)).foldl sha512Compress sha512Init
  u64be8 s.a ++ u64be8 s.b ++ u64be8 s.c ++ u64be8 s.d ++
  u64be8 s.e ++ u64be8 s.f ++ u64be8 s.g ++ u64be8 s.h

/-!
## HMAC (src/internal/totp/hmac.go)

`HashAlgorithm` is a string-tagged enum in the source; the `HMAC` switch
treats `"SHA256"` and `"SHA512"` specially and defaults every other tag
(including `"SHA1"`) to SHA-1.
-/

/-- The digest function selected by `HMAC`'s switch statement. -/
def algoHash (algo : String) : List Nat → List Nat :=
  if algo = "SHA256" then sha256 else if algo = "SHA512" then sha512 else sha1

/-- The HMAC block size selected by `HMAC`'s switch statement. -/
def algoBlockSize (algo : String) : Nat :=
  if algo = "SHA256" then 64 else if algo = "SHA512" then 128 else 64

/-- `HMAC(key, message, algo)` from src/internal/totp/hmac.go:
hash an over-long key down, zero-pad a short key up, then compute
`H((K xor opad) || H((K xor ipad) || message))`. -/
def HMAC (key message : List Nat) (algo : String) : List Nat :=
  let H := algoHash algo
  let blockSize := algoBlockSize algo
  let key1 := if key.length > blockSize then H key else key
  let key2 := if key1.length < blockSize
    then key1 ++ List.replicate (blockSize - key1.length) 0 else key1
  let ipad := key2.map (fun b => b ^^^ 54)
  let opad := key2.map (fun b => b ^^^ 92)
  H (opad ++ H (ipad ++ message))

/-!
## HOTP (src/internal/totp, GenerateHOTP)

Go's slice indexing panics when out of range; the embedding returns an
explicit error in that case so that in-boundedness is a provable
proposition (claim C10).
-/

/-- Checked read of the 4-byte big-endian word at index `i` (Go would
panic when the slice bounds are exceeded). -/
def read4 (l : List Nat) (i : Nat) : Option Nat :=
  match l.get? i, l.get? (i + 1), l.get? (i + 2), l.get? (i + 3) with
  | some a, some b, some c, some d => some (((a * 256 + b) * 256 + c) * 256 + d)
  | _, _, _, _ => none

/-- Fuel-driven worker for `natDigits` (structural recursion so that the
kernel can evaluate it; fuel `n` always suffices for `n` itself). -/
def natDigitsGo : Nat → Nat → List Nat
  | 0, n => [n]
  | fuel + 1, n => if n < 10 then [n] else natDigitsGo fuel (n / 10) ++ [n % 10]

/-- Big-endian decimal digit list of `n` (most significant first). -/
def natDigits (n : Nat) : List Nat := natDigitsGo n n

/-- Go's `fmt.Sprintf` with a zero-padded width-`w` decimal verb. -/
def fmtPad (w : Nat) (n : Nat) : String :=
  let ds := (natDigits n).map (fun d => Char.ofNat (48 + d))
  String.mk (List.replicate (w - ds.length) '0' ++ ds)

/-- `GenerateHOTP(secret, counter, digits, algo)`: RFC 4226 dynamic
truncation over the HMAC digest.  `digits` is a Go `int`, so it may be
negative; `counter` is a `uint64`. -/
def generateHOTP (secret : List Nat) (counter : Nat) (digits : Int) (algo : String) :
    Except String String :=
  if digits < 6 ∨ digits > 8 then .error "digits must be between 6 and 8"
  else
    let counterBytes := u64be8 (counter % M64)
    let hs := HMAC secret counterBytes algo
    match hs.get? (hs.length - 1) with
    | none => .error "panic: index out of range"
    | some lastByte =>
      let offset := lastByte &&& 15
      match read4 hs offset with
      | none => .error "panic: slice bounds out of range"
      | some word =>
        let binaryValue := word &&& 2147483647
        let d := digits.toNat
        let otp := binaryValue % (10 ^ d)
        .ok (fmtPad d otp)

/-!
## TOTP (src/internal/qr/parse.go, GenerateTOTP)
-/

/-- `TOTPParams` from the source: timestamp is Unix seconds (`int64`),
period and digits are Go `int`s, the algorithm a string tag. -/
structure TOTPParams where
  secret : List Nat
  timestamp : Int
  period : Int
  digits : Int
  algorithm : String

/-- The defaulted period: the source replaces `Period <= 0` by 30. -/
def defaultPeriod (p : Int) : Int := if p ≤ 0 then 30 else p

/-- The defaulted digit count: the source replaces `Digits == 0` by 6. -/
def defaultDigits (d : Int) : Int := if d = 0 then 6 else d

/-- The defaulted algorithm tag: the source replaces `""` by `"SHA1"`. -/
def defaultAlgorithm (a : String) : String := if a = "" then "SHA1" else a

/-- The counter computed by `GenerateTOTP`:
`uint64(params.Timestamp.Unix() / int64(params.Period))` — Go division
truncates toward zero and the `uint64` conversion reduces modulo `2^64`. -/
def totpCounter (timestamp period : Int) : Nat :=
  ((Int.tdiv timestamp period) % (2 ^ 64)).toNat

/-- `GenerateTOTP(params)`: apply defaults, derive the counter from the
timestamp and delegate to `GenerateHOTP`. -/
def generateTOTP (p : TOTPParams) : Except String String :=
  let period := defaultPeriod p.period
  let digits := defaultDigits p.digits
  let algo := defaultAlgorithm p.algorithm
  generateHOTP p.secret (totpCounter p.timestamp period) digits algo

/-- ASCII bytes of a string (all source secrets are ASCII). -/
def strBytes (s : String) : List Nat := s.data.map Char.toNat

instance {m : Type} {a : Type} [DecidableEq m] [DecidableEq a] :
    DecidableEq (Except m a) := fun x y =>
  match x, y with
  | .ok a, .ok b => if h : a = b then isTrue (by simp [h]) else isFalse (by simp [h])
  | .error a, .error b => if h : a = b then isTrue (by simp [h]) else isFalse (by simp [h])
  | .ok _, .error _ => isFalse (by simp)
  | .error _, .ok _ => isFalse (by simp)

/-!
## RFC 6238 reference inputs (src/internal/totp/totp_test.go)
-/

/-- The RFC 6238 SHA-1 reference secret. -/
def rfcSeed1 : List Nat := strBytes "12345678901234567890"

/-- The RFC 6238 SHA-256 reference secret. -/
def rfcSeed256 : List Nat := strBytes "12345678901234567890123456789012"

/-- The RFC 6238 SHA-512 reference secret. -/
def rfcSeed512 : List Nat :=
  strBytes "1234567890123456789012345678901234567890123456789012345678901234"

/-- C1: at each of the five RFC 6238 reference timestamps, `GenerateTOTP`
with period 30 and 8 digits reproduces the published 8-digit code for
SHA1, SHA256 and SHA512 with their reference secrets. -/
theorem generateTOTP_rfc6238_reference_codes :
    generateTOTP ⟨rfcSeed1, 59, 30, 8, "SHA1"⟩ = .ok "94287082" ∧
    generateTOTP ⟨rfcSeed1, 1111111109, 30, 8, "SHA1"⟩ = .ok "07081804" ∧
    generateTOTP ⟨rfcSeed1, 1111111111, 30, 8, "SHA1"⟩ = .ok "14050471" ∧
    generateTOTP ⟨rfcSeed1, 1234567890, 30, 8, "SHA1"⟩ = .ok "89005924" ∧
    generateTOTP ⟨rfcSeed1, 2000000000, 30, 8, "SHA1"⟩ = .ok "69279037" ∧
    generateTOTP ⟨rfcSeed256, 59, 30, 8, "SHA256"⟩ = .ok "46119246" ∧
    generateTOTP ⟨rfcSeed256, 1111111109, 30, 8, "SHA256"⟩ = .ok "68084774" ∧
    generateTOTP ⟨rfcSeed256, 1111111111, 30, 8, "SHA256"⟩ = .ok "67062674" ∧
    generateTOTP ⟨rfcSeed256, 1234567890, 30, 8, "SHA256"⟩ = .ok "91819424" ∧
    generateTOTP ⟨rfcSeed256, 2000000000, 30, 8, "SHA256"⟩ = .ok "90698825" ∧
    generateTOTP ⟨rfcSeed512, 59, 30, 8, "SHA512"⟩ = .ok "90693936" ∧
    generateTOTP ⟨rfcSeed512, 1111111109, 30, 8, "SHA512"⟩ = .ok "25091201" ∧
    generateTOTP ⟨rfcSeed512, 1111111111, 30, 8, "SHA512"⟩ = .ok "99943326" ∧
    generateTOTP ⟨rfcSeed512, 1234567890, 30, 8, "SHA512"⟩ = .ok "93441116" ∧
    generateTOTP ⟨rfcSeed512, 2000000000, 30, 8, "SHA512"⟩ = .ok "38618901" := by
  decide

/-!
## Digest and digit-count lemmas
-/

theorem length_sha1 (msg : List Nat) : (sha1 msg).length = 20 := by
  simp [sha1, u32be]

theorem length_sha256 (msg : List Nat) : (sha256 msg).length = 32 := by
  simp [sha256, u32be]

theorem length_sha512 (msg : List Nat) : (sha512 msg).length = 64 := by
  simp [sha512, u64be8]

/-- The digest output length selected by `HMAC`'s switch statement. -/
def algoOutLen (algo : String) : Nat :=
  if algo = "SHA256" then 32 else if algo = "SHA512" then 64 else 20

theorem length_HMAC (key msg : List Nat) (algo : String) :
    (HMAC key msg algo).length = algoOutLen algo := by
  unfold HMAC algoHash algoOutLen
  split_ifs <;> simp [length_sha1, length_sha256, length_sha512]

theorem algoOutLen_ge (algo : String) : 20 ≤ algoOutLen algo := by
  unfold algoOutLen; split_ifs <;> omega

theorem natDigitsGo_length_le (fuel : Nat) : ∀ n d, n < 10 ^ d → 1 ≤ d →
    (natDigitsGo fuel n).length ≤ d := by
  induction fuel with
  | zero => intro n d _ h1; simpa [natDigitsGo] using h1
  | succ fuel ih =>
    intro n d hn h1
    unfold natDigitsGo
    split
    · simpa using h1
    · rename_i h10
      have hd2 : 2 ≤ d := by
        by_contra hc
        have : d = 1 := by omega
        subst this
        simp at hn; omega
      have hdiv : n / 10 < 10 ^ (d - 1) := by
        have : n < 10 ^ (d - 1) * 10 := by
          have : 10 ^ (d - 1) * 10 = 10 ^ d := by
            have h11 : d - 1 + 1 = d := by omega
            calc 10 ^ (d - 1) * 10 = 10 ^ (d - 1 + 1) := by ring
            _ = 10 ^ d := by rw [h11]
          omega
        omega
      have := ih (n / 10) (d - 1) hdiv (by omega)
      simp only [List.length_append, List.length_cons, List.length_nil]
      omega

theorem natDigitsGo_lt_ten (fuel : Nat) : ∀ n, n ≤ fuel ∨ n < 10 →
    ∀ x ∈ natDigitsGo fuel n, x < 10 := by
  induction fuel with
  | zero =>
    intro n hn x hx
    simp only [natDigitsGo, List.mem_singleton] at hx
    subst hx; omega
  | succ fuel ih =>
    intro n hn x hx
    unfold natDigitsGo at hx
    split at hx
    · simp only [List.mem_singleton] at hx; subst hx; omega
    · rename_i h10
      simp only [List.mem_append, List.mem_singleton] at hx
      rcases hx with hx | hx
      · exact ih (n / 10) (by omega) x hx
      · subst hx; omega

theorem natDigits_length_le (n d : Nat) (hn : n < 10 ^ d) (hd : 1 ≤ d) :
    (natDigits n).length ≤ d := natDigitsGo_length_le n n d hn hd

theorem natDigits_lt_ten (n : Nat) : ∀ x ∈ natDigits n, x < 10 :=
  natDigitsGo_lt_ten n n (Or.inl le_rfl)

theorem fmtPad_length (w n : Nat) (h : (natDigits n).length ≤ w) :
    (fmtPad w n).length = w := by
  simp only [fmtPad, String.length]
  simp [h]

theorem fmtPad_digit_chars (w n : Nat) :
    ∀ c ∈ (fmtPad w n).data, 48 ≤ c.toNat ∧ c.toNat ≤ 57 := by
  intro c hc
  simp only [fmtPad] at hc
  rcases List.mem_append.mp hc with hc | hc
  · have h0 := List.eq_of_mem_replicate hc
    subst h0
    decide
  · obtain ⟨d, hd, h0⟩ := List.mem_map.mp hc
    have hd10 := natDigits_lt_ten n d hd
    subst h0
    interval_cases d <;> decide

theorem read4_eq_some (l : List Nat) (i : Nat) (h : i + 3 < l.length) :
    ∃ w, read4 l i = some w := by
  have h0 : i < l.length := by omega
  have h1 : i + 1 < l.length := by omega
  have h2 : i + 2 < l.length := by omega
  unfold read4
  rw [List.get?_eq_get h0, List.get?_eq_get h1, List.get?_eq_get h2, List.get?_eq_get h]
  exact ⟨_, rfl⟩

theorem generateHOTP_ok (secret : List Nat) (counter : Nat) (digits : Int) (algo : String)
    (h6 : 6 ≤ digits) (h8 : digits ≤ 8) :
    ∃ s, generateHOTP secret counter digits algo = .ok s ∧
      s.length = digits.toNat ∧ ∀ c ∈ s.data, 48 ≤ c.toNat ∧ c.toNat ≤ 57 := by
  simp only [generateHOTP]
  rw [if_neg (by omega)]
  have hlen := length_HMAC secret (u64be8 (counter % M64)) algo
  have hge := algoOutLen_ge algo
  split
  next heq =>
    exfalso
    rw [List.get?_eq_none] at heq
    omega
  next lastByte heq =>
    have hoff : lastByte &&& 15 ≤ 15 := Nat.and_le_right
    obtain ⟨w, hw⟩ := read4_eq_some (HMAC secret (u64be8 (counter % M64)) algo)
      (lastByte &&& 15) (by omega)
    split
    next heq2 => rw [hw] at heq2; cases heq2
    next w2 heq2 =>
      rw [hw] at heq2
      injection heq2 with hww
      subst hww
      refine ⟨_, rfl, ?_, fmtPad_digit_chars _ _⟩
      have hd1 : 1 ≤ digits.toNat := by omega
      have hotp : (w &&& 2147483647) % 10 ^ digits.toNat < 10 ^ digits.toNat :=
        Nat.mod_lt _ (Nat.pos_pow_of_pos _ (by omega))
      exact fmtPad_length _ _ (natDigits_length_le _ _ hotp hd1)

theorem generateHOTP_invalid_digits (secret : List Nat) (counter : Nat) (digits : Int)
    (algo : String) (h : digits ≤ 5 ∨ 9 ≤ digits) :
    generateHOTP secret counter digits algo = .error "digits must be between 6 and 8" := by
  simp only [generateHOTP]
  rw [if_pos (by omega)]

/-- C6: `GenerateHOTP` rejects any digit count of 5 or less or 9 or more
with an error and produces no code; for 6, 7 or 8 digits it succeeds with
a string of exactly `digits` decimal characters (each an ASCII digit). -/
theorem generateHOTP_digits_validation (secret : List Nat) (counter : Nat) (digits : Int)
    (algo : String) :
    (digits ≤ 5 ∨ 9 ≤ digits →
      generateHOTP secret counter digits algo = .error "digits must be between 6 and 8") ∧
    (6 ≤ digits → digits ≤ 8 →
      ∃ s, generateHOTP secret counter digits algo = .ok s ∧
        s.length = digits.toNat ∧ ∀ c ∈ s.data, 48 ≤ c.toNat ∧ c.toNat ≤ 57) :=
  ⟨generateHOTP_invalid_digits secret counter digits algo,
   fun h6 h8 => generateHOTP_ok secret counter digits algo h6 h8⟩

/-- Witness for C6 at concrete inputs: digits 5 and 9 fail, digits 6 succeeds
with a 6-character code. -/
theorem generateHOTP_digits_validation_witness :
    generateHOTP [1, 2] 0 5 "SHA1" = .error "digits must be between 6 and 8" ∧
    generateHOTP [1, 2] 0 9 "SHA1" = .error "digits must be between 6 and 8" ∧
    ∃ s, generateHOTP [1, 2] 0 6 "SHA1" = .ok s ∧
      s.length = (6 : Int).toNat ∧ ∀ c ∈ s.data, 48 ≤ c.toNat ∧ c.toNat ≤ 57 :=
  ⟨(generateHOTP_digits_validation [1, 2] 0 5 "SHA1").1 (by omega),
   (generateHOTP_digits_validation [1, 2] 0 9 "SHA1").1 (by omega),
   (generateHOTP_digits_validation [1, 2] 0 6 "SHA1").2 (by omega) (by omega)⟩

/-- C10: for every secret, counter, algorithm and digit count in [6,8]
the dynamic-truncation read stays inside the digest (every digest the
switch can select has at least 20 bytes, the offset is at most 15, so
`hs[offset..offset+4]` is in bounds) and `GenerateHOTP` returns a code
rather than reaching either panic branch of the embedding. -/
theorem generateHOTP_truncation_in_bounds (secret : List Nat) (counter : Nat) (digits : Int)
    (algo : String) (h6 : 6 ≤ digits) (h8 : digits ≤ 8) :
    20 ≤ (HMAC secret (u64be8 (counter % M64)) algo).length ∧
    ∃ s, generateHOTP secret counter digits algo = .ok s := by
  refine ⟨?_, ?_⟩
  · rw [length_HMAC]; exact algoOutLen_ge algo
  · obtain ⟨s, hs, _⟩ := generateHOTP_ok secret counter digits algo h6 h8
    exact ⟨s, hs⟩

/-- Witness for C10 at a concrete input. -/
theorem generateHOTP_truncation_in_bounds_witness :
    20 ≤ (HMAC [5] (u64be8 (7 % M64)) "SHA256").length ∧
    ∃ s, generateHOTP [5] 7 7 "SHA256" = .ok s :=
  generateHOTP_truncation_in_bounds [5] 7 7 "SHA256" (by omega) (by omega)

/-!
## C5: the TOTP counter

The source computes `uint64(params.Timestamp.Unix() / int64(params.Period))`.
Go's `/` on integers truncates toward zero, so for negative timestamps the
counter differs from `floor(unix_seconds / period)`.
-/

/-- C5 counterexample: at Unix time `-1` with period 30 the code's counter
is 0 (truncated division), while `floor(-1/30) = -1` (which as a `uint64`
would be `2^64 - 1`), and HOTP at the two counters disagrees. -/
theorem generateTOTP_counter_not_floor :
    totpCounter (-1) 30 = 0 ∧
    Int.fdiv (-1) 30 = -1 ∧
    ((Int.fdiv (-1) 30) % (2 ^ 64)).toNat = 18446744073709551615 ∧
    generateTOTP ⟨[1], -1, 30, 8, "SHA1"⟩ = generateHOTP [1] 0 8 "SHA1" ∧
    generateHOTP [1] 0 8 "SHA1" ≠ generateHOTP [1] 18446744073709551615 8 "SHA1" := by
  refine ⟨by decide, by decide, by decide, rfl, by decide⟩

/-- C5 (amended): for non-negative timestamps within the `int64` range and
a positive period, the counter does equal `floor(unix_seconds / period)`,
and `GenerateTOTP` delegates to `GenerateHOTP` at that counter with the
defaulted digits and algorithm; the defaults are applied when the period
is non-positive, the digit count is zero, or the algorithm tag is empty. -/
theorem generateTOTP_counter_floor_amended (p : TOTPParams)
    (ht0 : 0 ≤ p.timestamp) (ht1 : p.timestamp < 2 ^ 63) (hp : 0 < p.period) :
    generateTOTP p =
      generateHOTP p.secret (Int.toNat (Int.fdiv p.timestamp p.period))
        (defaultDigits p.digits) (defaultAlgorithm p.algorithm) := by
  have h1 : Int.tdiv p.timestamp p.period = p.timestamp / p.period :=
    Int.tdiv_eq_ediv ht0 (by omega)
  have h2 : Int.fdiv p.timestamp p.period = p.timestamp / p.period :=
    Int.fdiv_eq_ediv _ (by omega)
  have hq0 : 0 ≤ p.timestamp / p.period := Int.ediv_nonneg ht0 (by omega)
  have hqlt : p.timestamp / p.period < 2 ^ 64 :=
    lt_of_le_of_lt (Int.ediv_le_self _ ht0) (by omega)
  simp only [generateTOTP, totpCounter, defaultPeriod]
  rw [if_neg (by omega), h1, h2, Int.emod_eq_of_lt hq0 hqlt]

/-- Witness for the amended C5 at a concrete input. -/
theorem generateTOTP_counter_floor_amended_witness :
    generateTOTP ⟨[1], 59, 30, 8, "SHA1"⟩ =
      generateHOTP [1] (Int.toNat (Int.fdiv 59 30))
        (defaultDigits 8) (defaultAlgorithm "SHA1") :=
  generateTOTP_counter_floor_amended ⟨[1], 59, 30, 8, "SHA1"⟩
    (by decide) (by decide) (by decide)

/-!
## Base32 (src/pkg/base32/base32.go)

Strings are modelled as their byte lists (`'='` is 61).  `Encode`'s
`uint64` buffer is reduced modulo `2^64` exactly where Go overflows.
-/

/-- The Base32 alphabet `"ABCDEFGHIJKLMNOPQRSTUVWXYZ234567"` as bytes. -/
def b32Alphabet : List Nat := strBytes "ABCDEFGHIJKLMNOPQRSTUVWXYZ234567"

/-- The inner `for bitsLeft >= 5` loop of `Encode`: emit 5-bit chunks from
the top of the buffer, returning the emitted characters and the final
`bitsLeft` (the fuel is always at least `bits`, so the loop runs out of
work, never out of fuel). -/
def encDrain : Nat → Nat → Nat → (List Nat × Nat)
  | 0, _, bits => ([], bits)
  | fuel + 1, buffer, bits =>
    if 5 ≤ bits then
      let c := b32Alphabet.getD ((buffer >>> (bits - 5)) &&& 31) 0
      let r := encDrain fuel buffer (bits - 5)
      (c :: r.1, r.2)
    else ([], bits)

/-- The main byte loop of `Encode`: shift each byte into the buffer and
drain 5-bit chunks; returns the emitted characters and the final
`(buffer, bitsLeft)`. -/
def encodeCore : List Nat → Nat → Nat → (List Nat × Nat × Nat)
  | [], buffer, bits => ([], buffer, bits)
  | b :: rest, buffer, bits =>
    let buffer' := ((buffer <<< 8) ||| b) % M64
    let dr := encDrain (bits + 8) buffer' (bits + 8)
    let r := encodeCore rest buffer' dr.2
    (dr.1 ++ r.1, r.2)

/-- The final character `Encode` emits when bits remain after the loop. -/
def encTail (buffer bits : Nat) : List Nat :=
  if 0 < bits then [b32Alphabet.getD (((buffer <<< (5 - bits)) % M64) &&& 31) 0] else []

/-- `Encode(data)` from src/pkg/base32/base32.go: returns the Base32
string (as bytes) with `'='` padding to a multiple of 8 characters. -/
def base32Encode (data : List Nat) : List Nat :=
  if data = [] then []
  else
    let r := encodeCore data 0 0
    let body := r.1 ++ encTail r.2.1 r.2.2
    body ++ List.replicate ((8 - body.length % 8) % 8) 61

/-- The character-to-value map inside `Decode`'s loop: `A`–`Z` map to
0–25, `2`–`7` to 26–31, anything else is an error. -/
def b32Val (c : Nat) : Except String Nat :=
  if 65 ≤ c ∧ c ≤ 90 then .ok (c - 65)
  else if 50 ≤ c ∧ c ≤ 55 then .ok (c - 50 + 26)
  else .error "invalid base32 character"

/-- The main loop of `Decode`: shift each 5-bit value into the buffer and
emit a byte whenever 8 bits are available. -/
def decodeCore : List Nat → Nat → Nat → Except String (List Nat)
  | [], _, _ => .ok []
  | c :: rest, buffer, bits =>
    match b32Val c with
    | .error e => .error e
    | .ok val =>
      let buffer' := ((buffer <<< 5) ||| val) % M64
      let bits' := bits + 5
      if 8 ≤ bits' then
        match decodeCore rest buffer' (bits' - 8) with
        | .ok out => .ok (((buffer' >>> (bits' - 8)) &&& 255) :: out)
        | .error e => .error e
      else decodeCore rest buffer' bits'

/-- Byte-level ASCII upper-casing, as `strings.ToUpper` acts on the
alphabet-relevant range. -/
def toUpperByte (c : Nat) : Nat := if 97 ≤ c ∧ c ≤ 122 then c - 32 else c

/-- `strings.TrimRight(s, "=")`: drop trailing `'='` bytes. -/
def trimPadRight (s : List Nat) : List Nat :=
  (s.reverse.dropWhile (fun c => c = 61)).reverse

/-- `Decode(s)` from src/pkg/base32/base32.go: normalize (strip padding,
upper-case), then run the decode loop. -/
def base32Decode (s : List Nat) : Except String (List Nat) :=
  let t := (trimPadRight s).map toUpperByte
  if t = [] then .ok [] else decodeCore t 0 0

theorem and31_eq_mod (x : Nat) : x &&& 31 = x % 32 := by
  simpa using Nat.and_pow_two_sub_one_eq_mod x 5

theorem and255_eq_mod (x : Nat) : x &&& 255 = x % 256 := by
  simpa using Nat.and_pow_two_sub_one_eq_mod x 8

theorem shl8_or_add (a b : Nat) (h : b < 256) : (a <<< 8) ||| b = a * 256 + b := by
  rw [Nat.shiftLeft_eq]
  have h2 := (Nat.mul_add_lt_is_or (i := 8) (by omega : b < 2 ^ 8) a).symm
  calc a * 2 ^ 8 ||| b = 2 ^ 8 * a ||| b := by rw [Nat.mul_comm]
  _ = 2 ^ 8 * a + b := h2
  _ = a * 256 + b := by ring

theorem shl5_or_add (a b : Nat) (h : b < 32) : (a <<< 5) ||| b = a * 32 + b := by
  rw [Nat.shiftLeft_eq]
  have h2 := (Nat.mul_add_lt_is_or (i := 5) (by omega : b < 2 ^ 5) a).symm
  calc a * 2 ^ 5 ||| b = 2 ^ 5 * a ||| b := by rw [Nat.mul_comm]
  _ = 2 ^ 5 * a + b := h2
  _ = a * 32 + b := by ring

theorem b32Val_alphabet : ∀ i, i < 32 → b32Val (b32Alphabet.getD i 0) = .ok i := by decide

theorem alphabet_toUpper : ∀ i, i < 32 →
    toUpperByte (b32Alphabet.getD i 0) = b32Alphabet.getD i 0 := by decide

theorem alphabet_ne_pad : ∀ i, i < 32 → b32Alphabet.getD i 0 ≠ 61 := by decide

theorem encDrain_chars (fuel : Nat) : ∀ buffer bits c,
    c ∈ (encDrain fuel buffer bits).1 → ∃ i, i < 32 ∧ c = b32Alphabet.getD i 0 := by
  induction fuel with
  | zero => intro buffer bits c hc; simp [encDrain] at hc
  | succ fuel ih =>
    intro buffer bits c hc
    unfold encDrain at hc
    split at hc
    · simp only [List.mem_cons] at hc
      rcases hc with hc | hc
      · subst hc
        exact ⟨(buffer >>> (bits - 5)) &&& 31, by rw [and31_eq_mod]; omega, rfl⟩
      · exact ih buffer (bits - 5) c hc
    · simp at hc

theorem encodeCore_chars : ∀ data buffer bits c,
    c ∈ (encodeCore data buffer bits).1 → ∃ i, i < 32 ∧ c = b32Alphabet.getD i 0 := by
  intro data
  induction data with
  | nil => intro buffer bits c hc; simp [encodeCore] at hc
  | cons b rest ih =>
    intro buffer bits c hc
    simp only [encodeCore, List.mem_append] at hc
    rcases hc with hc | hc
    · exact encDrain_chars _ _ _ c hc
    · exact ih _ _ c hc

theorem encTail_chars (buffer bits c : Nat) (hc : c ∈ encTail buffer bits) :
    ∃ i, i < 32 ∧ c = b32Alphabet.getD i 0 := by
  unfold encTail at hc
  split at hc
  · simp only [List.mem_singleton] at hc
    subst hc
    exact ⟨_, by rw [and31_eq_mod]; omega, rfl⟩
  · simp at hc

theorem dropWhile_replicate_append (n : Nat) (l : List Nat) :
    List.dropWhile (fun c => c = 61) (List.replicate n 61 ++ l) =
    List.dropWhile (fun c => c = 61) l := by
  induction n with
  | zero => simp
  | succ n ih => simp [List.replicate_succ, List.dropWhile_cons, ih]

theorem trimPad_append_replicate (body : List Nat) (n : Nat) (h : ∀ c ∈ body, c ≠ 61) :
    trimPadRight (body ++ List.replicate n 61) = body := by
  unfold trimPadRight
  rw [List.reverse_append, List.reverse_replicate, dropWhile_replicate_append]
  cases hb : body.reverse with
  | nil =>
    have : body = [] := by simpa using congrArg List.reverse hb
    simp [this]
  | cons x xs =>
    have hx : x ∈ body := by
      have : x ∈ body.reverse := by rw [hb]; exact List.mem_cons_self x xs
      simpa using this
    rw [List.dropWhile_cons_of_neg (by simpa using h x hx)]
    rw [← hb, List.reverse_reverse]

theorem decodeCore_invalid : ∀ t buffer bits,
    (∃ c ∈ t, b32Val c = .error "invalid base32 character") →
    decodeCore t buffer bits = .error "invalid base32 character" := by
  intro t
  induction t with
  | nil => intro buffer bits h; simp at h
  | cons c rest ih =>
    intro buffer bits h
    simp only [List.mem_cons] at h
    obtain ⟨x, hx, hbad⟩ := h
    unfold decodeCore
    rcases hx with hx | hx
    · subst hx
      rw [hbad]
    · cases hv : b32Val c with
      | error e =>
        unfold b32Val at hv
        split_ifs at hv
        all_goals simp_all
      | ok val =>
        simp only []
        split
        · rw [ih _ _ ⟨x, hx, hbad⟩]
        · exact ih _ _ ⟨x, hx, hbad⟩

theorem encDrain_8 (buf : Nat) :
    encDrain 8 buf 8 = ([b32Alphabet.getD ((buf >>> 3) &&& 31) 0], 3) := by
  simp [encDrain]

theorem encDrain_9 (buf : Nat) :
    encDrain 9 buf 9 = ([b32Alphabet.getD ((buf >>> 4) &&& 31) 0], 4) := by
  simp [encDrain]

theorem encDrain_10 (buf : Nat) :
    encDrain 10 buf 10 =
      ([b32Alphabet.getD ((buf >>> 5) &&& 31) 0, b32Alphabet.getD ((buf >>> 0) &&& 31) 0], 0) := by
  simp [encDrain]

theorem encDrain_11 (buf : Nat) :
    encDrain 11 buf 11 =
      ([b32Alphabet.getD ((buf >>> 6) &&& 31) 0, b32Alphabet.getD ((buf >>> 1) &&& 31) 0], 1) := by
  simp [encDrain]

theorem encDrain_12 (buf : Nat) :
    encDrain 12 buf 12 =
      ([b32Alphabet.getD ((buf >>> 7) &&& 31) 0, b32Alphabet.getD ((buf >>> 2) &&& 31) 0], 2) := by
  simp [encDrain]


theorem mul32_or_add (a b : Nat) (h : b < 32) : (a * 32) ||| b = a * 32 + b := by
  have h2 := (Nat.mul_add_lt_is_or (i := 5) (by omega : b < 2 ^ 5) a).symm
  norm_num at h2
  calc a * 32 ||| b = 32 * a ||| b := by rw [Nat.mul_comm]
  _ = 32 * a + b := h2
  _ = a * 32 + b := by ring

set_option maxHeartbeats 4000000 in
theorem rtCore : ∀ (data : List Nat) (ebuf ebits dbuf dbits : Nat),
    (∀ b ∈ data, b < 256) → ebits < 5 → dbits < 8 →
    (ebits = 0 ∧ dbits = 0 ∨ ebits + dbits = 8) →
    decodeCore ((encodeCore data ebuf ebits).1 ++
        encTail (encodeCore data ebuf ebits).2.1 (encodeCore data ebuf ebits).2.2)
      dbuf dbits =
    .ok ((if ebits + dbits = 8
          then [(dbuf % 2 ^ dbits) * 2 ^ ebits + ebuf % 2 ^ ebits] else []) ++ data) := by
  intro data
  induction data with
  | nil =>
    intro ebuf ebits dbuf dbits _ he hd hsum
    simp only [encodeCore, List.nil_append, List.append_nil]
    rcases hsum with ⟨he0, hd0⟩ | hsum8
    · subst he0; subst hd0
      simp [encTail, decodeCore]
    · have he1 : 1 ≤ ebits := by omega
      rw [if_pos hsum8]
      unfold encTail
      rw [if_pos (by omega)]
      have hidxlt : ((ebuf <<< (5 - ebits)) % M64) &&& 31 < 32 := by
        rw [and31_eq_mod]; omega
      unfold decodeCore
      rw [b32Val_alphabet _ hidxlt]
      simp only []
      rw [if_pos (by omega : 8 ≤ dbits + 5)]
      simp only [decodeCore]
      have hdd : dbits = 8 - ebits := by omega
      subst hdd
      rw [shl5_or_add _ _ hidxlt]
      interval_cases ebits <;>
      · simp only [M64, and31_eq_mod, and255_eq_mod, Nat.shiftRight_eq_div_pow,
          Nat.shiftLeft_eq]
        norm_num
        try omega
  | cons b rest ih =>
    intro ebuf ebits dbuf dbits h256 he hd hsum
    have hb : b < 256 := h256 b (List.mem_cons_self b rest)
    have h256r : ∀ x ∈ rest, x < 256 := fun x hx => h256 x (List.mem_cons_of_mem b hx)
    simp only [encodeCore]
    rcases hsum with ⟨he0, hd0⟩ | hsum8
    · subst he0; subst hd0
      norm_num only
      rw [encDrain_8]
      simp only [List.cons_append, List.nil_append, List.append_assoc]
      have hidx1 : ((((ebuf <<< 8) ||| b) % M64) >>> 3) &&& 31 < 32 := by
        rw [and31_eq_mod]; omega
      simp only [decodeCore]
      rw [b32Val_alphabet _ hidx1]
      simp only []
      rw [if_neg (by omega : ¬ 8 ≤ 0 + 5)]
      rw [shl5_or_add _ _ hidx1]
      rw [ih _ 3 _ 5 h256r (by omega) (by omega) (Or.inr (by norm_num))]
      norm_num only
      congr 1
      rw [shl8_or_add _ _ hb]
      simp only [M64, and31_eq_mod, Nat.shiftRight_eq_div_pow]
      norm_num
      omega
    · have he1 : 1 ≤ ebits := by omega
      interval_cases ebits
      · -- ebits = 1, dbits = 7
        have hd7 : dbits = 7 := by omega
        subst hd7
        norm_num only
        rw [encDrain_9]
        simp only [List.cons_append, List.nil_append, List.append_assoc]
        have hidx1 : ((((ebuf <<< 8) ||| b) % M64) >>> 4) &&& 31 < 32 := by
          rw [and31_eq_mod]; omega
        simp only [decodeCore]
        rw [b32Val_alphabet _ hidx1]
        simp only []
        rw [if_pos (by omega : 8 ≤ 7 + 5)]
        rw [shl5_or_add _ _ hidx1]
        rw [ih _ 4 _ 4 h256r (by omega) (by omega) (Or.inr (by norm_num))]
        norm_num only
        rw [shl8_or_add _ _ hb]
        simp only [M64, and31_eq_mod, and255_eq_mod, Nat.shiftRight_eq_div_pow]
        norm_num
        omega
      · -- ebits = 2, dbits = 6
        have hd6 : dbits = 6 := by omega
        subst hd6
        norm_num only
        rw [encDrain_10]
        simp only [List.cons_append, List.nil_append, List.append_assoc]
        have hidx1 : ((((ebuf <<< 8) ||| b) % M64) >>> 5) &&& 31 < 32 := by
          rw [and31_eq_mod]; omega
        have hidx2 : ((((ebuf <<< 8) ||| b) % M64) >>> 0) &&& 31 < 32 := by
          rw [and31_eq_mod]; omega
        simp only [decodeCore]
        rw [b32Val_alphabet _ hidx1]
        simp only []
        rw [if_pos (by omega : 8 ≤ 6 + 5)]
        rw [b32Val_alphabet _ hidx2]
        simp only []
        rw [if_pos (by omega : 8 ≤ 6 + 5 - 8 + 5)]
        rw [shl5_or_add _ _ hidx1, shl5_or_add _ _ hidx2]
        rw [ih _ 0 _ 0 h256r (by omega) (by omega) (Or.inl (by norm_num))]
        norm_num only
        rw [shl8_or_add _ _ hb]
        simp only [M64, and31_eq_mod, and255_eq_mod, Nat.shiftRight_eq_div_pow]
        norm_num
        omega
      · -- ebits = 3, dbits = 5
        have hd5 : dbits = 5 := by omega
        subst hd5
        norm_num only
        rw [encDrain_11]
        simp only [List.cons_append, List.nil_append, List.append_assoc]
        have hidx1 : ((((ebuf <<< 8) ||| b) % M64) >>> 6) &&& 31 < 32 := by
          rw [and31_eq_mod]; omega
        have hidx2 : ((((ebuf <<< 8) ||| b) % M64) >>> 1) &&& 31 < 32 := by
          rw [and31_eq_mod]; omega
        simp only [decodeCore]
        rw [b32Val_alphabet _ hidx1]
        simp only []
        rw [if_pos (by omega : 8 ≤ 5 + 5)]
        rw [b32Val_alphabet _ hidx2]
        simp only []
        rw [if_neg (by omega : ¬ 8 ≤ 5 + 5 - 8 + 5)]
        rw [shl5_or_add _ _ hidx1, shl5_or_add _ _ hidx2]
        rw [ih _ 1 _ 7 h256r (by omega) (by omega) (Or.inr (by norm_num))]
        norm_num only
        rw [shl8_or_add _ _ hb]
        simp only [M64, and31_eq_mod, and255_eq_mod, Nat.shiftRight_eq_div_pow]
        norm_num
        omega
      · -- ebits = 4, dbits = 4
        have hd4 : dbits = 4 := by omega
        subst hd4
        norm_num only
        rw [encDrain_12]
        simp only [List.cons_append, List.nil_append, List.append_assoc]
        have hidx1 : ((((ebuf <<< 8) ||| b) % M64) >>> 7) &&& 31 < 32 := by
          rw [and31_eq_mod]; omega
        have hidx2 : ((((ebuf <<< 8) ||| b) % M64) >>> 2) &&& 31 < 32 := by
          rw [and31_eq_mod]; omega
        simp only [decodeCore]
        rw [b32Val_alphabet _ hidx1]
        simp only []
        rw [if_pos (by omega : 8 ≤ 4 + 5)]
        rw [b32Val_alphabet _ hidx2]
        simp only []
        rw [if_neg (by omega : ¬ 8 ≤ 4 + 5 - 8 + 5)]
        rw [shl5_or_add _ _ hidx1, shl5_or_add _ _ hidx2]
        rw [ih _ 2 _ 6 h256r (by omega) (by omega) (Or.inr (by norm_num))]
        norm_num only
        rw [shl8_or_add _ _ hb]
        simp only [M64, and31_eq_mod, and255_eq_mod, Nat.shiftRight_eq_div_pow]
        norm_num
        omega

theorem map_toUpper_fix (body : List Nat)
    (h : ∀ c ∈ body, ∃ i, i < 32 ∧ c = b32Alphabet.getD i 0) :
    body.map toUpperByte = body := by
  induction body with
  | nil => rfl
  | cons c rest ih =>
    simp only [List.map_cons]
    obtain ⟨i, hi, hc⟩ := h c (List.mem_cons_self c rest)
    rw [hc, alphabet_toUpper i hi, ih (fun x hx => h x (List.mem_cons_of_mem c hx))]

theorem b32Val_ok_iff_mem (c : Nat) :
    (∃ v, b32Val c = .ok v) ↔ c ∈ b32Alphabet := by
  constructor
  · intro ⟨v, hv⟩
    unfold b32Val at hv
    split_ifs at hv with h1 h2
    · have : 65 ≤ c ∧ c ≤ 90 := h1
      obtain ⟨ha, hb⟩ := this
      interval_cases c <;> decide
    · have : 50 ≤ c ∧ c ≤ 55 := h2
      obtain ⟨ha, hb⟩ := this
      interval_cases c <;> decide
  · intro hc
    fin_cases hc <;> exact ⟨_, rfl⟩

theorem b32Val_error_of_not_mem (c : Nat) (h : c ∉ b32Alphabet) :
    b32Val c = .error "invalid base32 character" := by
  cases hv : b32Val c with
  | ok v => exact absurd ((b32Val_ok_iff_mem c).mp ⟨v, hv⟩) h
  | error e =>
    unfold b32Val at hv
    split_ifs at hv
    all_goals simp_all

theorem base32_roundtrip (data : List Nat) (h256 : ∀ b ∈ data, b < 256) :
    base32Decode (base32Encode data) = .ok data := by
  by_cases hnil : data = []
  · subst hnil; rfl
  · unfold base32Encode
    rw [if_neg hnil]
    have hchars : ∀ c ∈ (encodeCore data 0 0).1 ++
        encTail (encodeCore data 0 0).2.1 (encodeCore data 0 0).2.2,
        ∃ i, i < 32 ∧ c = b32Alphabet.getD i 0 := by
      intro c hc
      rcases List.mem_append.mp hc with hc | hc
      · exact encodeCore_chars _ _ _ c hc
      · exact encTail_chars _ _ c hc
    have hne61 : ∀ c ∈ (encodeCore data 0 0).1 ++
        encTail (encodeCore data 0 0).2.1 (encodeCore data 0 0).2.2, c ≠ 61 := by
      intro c hc
      obtain ⟨i, hi, hc2⟩ := hchars c hc
      rw [hc2]
      exact alphabet_ne_pad i hi
    unfold base32Decode
    rw [trimPad_append_replicate _ _ hne61, map_toUpper_fix _ hchars]
    have hrt := rtCore data 0 0 0 0 h256 (by omega) (by omega) (Or.inl ⟨rfl, rfl⟩)
    norm_num at hrt
    by_cases hb : (encodeCore data 0 0).1 ++
        encTail (encodeCore data 0 0).2.1 (encodeCore data 0 0).2.2 = []
    · rw [if_pos hb]
      rw [hb] at hrt
      simp only [decodeCore] at hrt
      injection hrt with h0
      exact absurd h0.symm hnil
    · rw [if_neg hb]
      exact hrt

theorem base32Decode_rejects (s : List Nat)
    (h : ∃ c ∈ (trimPadRight s).map toUpperByte, c ∉ b32Alphabet) :
    base32Decode s = .error "invalid base32 character" := by
  obtain ⟨c, hc, hnot⟩ := h
  unfold base32Decode
  rw [if_neg (by intro h0; rw [h0] at hc; simp at hc)]
  exact decodeCore_invalid _ 0 0 ⟨c, hc, b32Val_error_of_not_mem c hnot⟩

/-- C4: Base32 round trip — for every byte sequence, `Decode(Encode(b))`
succeeds and returns `b`; `Encode` of the empty sequence is the empty
string; and `Decode` errors whenever the input (after padding removal and
upper-casing) contains a byte outside the 32-character alphabet. -/
theorem base32_encode_decode_spec :
    (∀ data, (∀ b ∈ data, b < 256) → base32Decode (base32Encode data) = .ok data) ∧
    base32Encode [] = [] ∧
    (∀ s, (∃ c ∈ (trimPadRight s).map toUpperByte, c ∉ b32Alphabet) →
      base32Decode s = .error "invalid base32 character") :=
  ⟨base32_roundtrip, rfl, base32Decode_rejects⟩

/-- Witness for C4 at concrete inputs. -/
theorem base32_encode_decode_spec_witness :
    base32Decode (base32Encode [255, 0, 7, 31, 200, 42]) = .ok [255, 0, 7, 31, 200, 42] ∧
    base32Encode [] = [] ∧
    base32Decode (strBytes "AB1C") = .error "invalid base32 character" :=
  ⟨base32_encode_decode_spec.1 [255, 0, 7, 31, 200, 42] (by decide),
   base32_encode_decode_spec.2.1,
   base32_encode_decode_spec.2.2 (strBytes "AB1C") ⟨49, by decide, by decide⟩⟩

/-!
## Crypto layer (src/unnamed/part_011, src/internal/crypto/aes.go)

Byte strings that flow through the AEAD layer are modelled symbolically:
`raw` concrete bytes, `vaultDoc`/`sessionDoc` JSON serializations, and
`gcmSeal` an AES-GCM `nonce ‖ ciphertext ‖ tag` blob.  Keys are either
concrete bytes or the (deterministic) Argon2id derivation from a
password, salt and parameters.
-/

/-- `Argon2Params` from src/unnamed/part_011. -/
structure Argon2Params where
  memory : Nat
  iterations : Nat
  parallelism : Nat
  saltLength : Nat
  keyLength : Nat
deriving DecidableEq

/-- `DefaultArgon2Params()`. -/
def DefaultArgon2Params : Argon2Params := ⟨65536, 3, 4, 16, 32⟩

/-- A key value: concrete bytes or an Argon2id-derived key. -/
inductive KeyV
  | rawKey (bs : List Nat)
  | derivedKey (password salt : List Nat) (params : Argon2Params)
deriving DecidableEq

/-- `DeriveKey(password, salt, params)`: deterministic Argon2id output. -/
def DeriveKey (password salt : List Nat) (params : Argon2Params) : KeyV :=
  .derivedKey password salt params

/-- The byte length of a key (`argon2.IDKey` returns `KeyLength` bytes). -/
def keyLen : KeyV → Nat
  | .rawKey bs => bs.length
  | .derivedKey _ _ params => params.keyLength

/-- A minimal vault document: the fields the storage layer inspects. -/
structure VaultV where
  salt : List Nat
  kdfParams : Argon2Params
  accounts : List Nat
deriving DecidableEq

/-- Symbolic byte strings for the AEAD layer. -/
inductive AData
  | raw (bs : List Nat)
  | vaultDoc (v : VaultV)
  | sessionDoc (skey : List Nat) (expiresAt : Int)
  | gcmSeal (key : KeyV) (nonce : List Nat) (pt : AData)
deriving DecidableEq

/-- The byte length of a symbolic byte string (a GCM seal is
`nonce ‖ ciphertext ‖ 16-byte tag`; the JSON documents only need a
positive length, 2 standing for at least `"{}"`). -/
def adataLen : AData → Nat
  | .raw bs => bs.length
  | .vaultDoc _ => 2
  | .sessionDoc _ _ => 2
  | .gcmSeal _ nonce pt => nonce.length + adataLen pt + 16

/-- `aes.NewCipher`'s key-size gate: Go accepts 16, 24 or 32 bytes
(AES-128/192/256) and errors otherwise. -/
def aesKeySizeOk (key : KeyV) : Prop :=
  keyLen key = 16 ∨ keyLen key = 24 ∨ keyLen key = 32

instance (key : KeyV) : Decidable (aesKeySizeOk key) := by
  unfold aesKeySizeOk; infer_instance

/-- `Encrypt(plaintext, key)` from src/internal/crypto/aes.go: create the
cipher (key-size check), then seal with a fresh 96-bit nonce (passed in
as the sampled randomness) prepended to the output. -/
def Encrypt (plaintext : AData) (key : KeyV) (nonce : List Nat) : Except String AData :=
  if aesKeySizeOk key then .ok (.gcmSeal key nonce plaintext)
  else .error "crypto/aes: invalid key size"

/-- `Decrypt(ciphertext, key)` from src/internal/crypto/aes.go: key-size
check, minimum-length check, then `gcm.Open` which succeeds exactly on a
blob sealed under the same key. -/
def Decrypt (ciphertext : AData) (key : KeyV) : Except String AData :=
  if aesKeySizeOk key then
    if adataLen ciphertext < 12 then .error "ciphertext too short"
    else
      match ciphertext with
      | .gcmSeal k _ pt =>
        if k = key then .ok pt else .error "cipher: message authentication failed"
      | _ => .error "cipher: message authentication failed"
  else .error "crypto/aes: invalid key size"

/-!
## Vault load (src/unnamed/part_002)
-/

/-- An on-disk vault file's parse outcome: garbage or the
`VaultMetadata` JSON envelope `(salt, kdf_params, ciphertext)`. -/
inductive MetaBytes
  | notJson (bs : List Nat)
  | metaJson (salt : List Nat) (params : Argon2Params) (ciphertext : AData)
deriving DecidableEq

/-- `UnmarshalVault(data, password, salt, params)` from
src/internal/vault/vault.go: derive the key, decrypt, parse the vault
JSON. -/
def UnmarshalVault (data : AData) (password salt : List Nat) (params : Argon2Params) :
    Except String VaultV :=
  let key := DeriveKey password salt params
  match Decrypt data key with
  | .error e => .error e
  | .ok pt =>
    match pt with
    | .vaultDoc v => .ok v
    | _ => .error "invalid character looking for beginning of value"

/-- `LoadVault(path, password)` from src/unnamed/part_002: read the
file, parse the metadata envelope, then `UnmarshalVault` — note there is
no empty-salt check on this path. -/
def LoadVault (file : Except String MetaBytes) (password : List Nat) :
    Except String VaultV :=
  match file with
  | .error e => .error e
  | .ok (.notJson _) => .error "invalid character looking for beginning of value"
  | .ok (.metaJson salt params ct) => UnmarshalVault ct password salt params

/-- `LoadVaultWithKey(path, key)` from src/unnamed/part_002. -/
def LoadVaultWithKey (file : Except String MetaBytes) (key : KeyV) :
    Except String VaultV :=
  match file with
  | .error e => .error e
  | .ok (.notJson _) => .error "invalid character looking for beginning of value"
  | .ok (.metaJson _ _ ct) =>
    match Decrypt ct key with
    | .error e => .error e
    | .ok pt =>
      match pt with
      | .vaultDoc v => .ok v
      | _ => .error "invalid character looking for beginning of value"

/-- `LoadVaultInteractive(path, promptFunc)` from src/unnamed/part_002:
try the session key, then fall back to reading the metadata, checking
for an empty salt, prompting for the password and decrypting.  The
session key and the prompt outcome are injected. -/
def LoadVaultInteractive (sessionKey : Option KeyV) (file : Except String MetaBytes)
    (promptResult : Except String (List Nat)) : Except String (VaultV × KeyV) :=
  let viaSession : Option (VaultV × KeyV) :=
    match sessionKey with
    | some key =>
      match LoadVaultWithKey file key with
      | .ok v => some (v, key)
      | .error _ => none
    | none => none
  match viaSession with
  | some r => .ok r
  | none =>
    match file with
    | .error _ => .error "could not read vault file"
    | .ok (.notJson _) => .error "failed to parse vault metadata"
    | .ok (.metaJson salt params ct) =>
      if salt = [] then
        .error "vault file is corrupted or in an incompatible format (missing salt)"
      else
        match promptResult with
        | .error e => .error e
        | .ok password =>
          let key := DeriveKey password salt params
          match Decrypt ct key with
          | .error _ => .error "invalid master password"
          | .ok pt =>
            match pt with
            | .vaultDoc v => .ok (v, key)
            | _ => .error "invalid master password"

/-!
## Session cache (src/internal/vault/vault.go, GetSession)

The environment injects the path lookup, the read outcome (`none` is a
missing file, an error is any other read failure), the machine key and
the current time.  The result pairs the function's return value with the
session file's state afterwards, so that "deletes the stale file" is
expressible.
-/

/-- The environment `GetSession` runs in. -/
structure SessEnv where
  pathOk : Bool
  readResult : Option (Except String AData)
  machineKey : KeyV
  now : Int

/-- `GetSession()` from src/internal/vault/vault.go.  Returns the Go
result (`key or nil`, error) and the session-file state after the call
(`none` when the file is absent or was removed). -/
def GetSession (env : SessEnv) :
    Except String (Option (List Nat)) × Option (Except String AData) :=
  if ¬ env.pathOk then (.error "config dir error", env.readResult)
  else
    match env.readResult with
    | none => (.ok none, none)
    | some (.error e) => (.error e, env.readResult)
    | some (.ok blob) =>
      if ¬ aesKeySizeOk env.machineKey then
        (.error "crypto/aes: invalid key size", env.readResult)
      else if adataLen blob < 12 then (.error "ciphertext too short", env.readResult)
      else
        match blob with
        | .gcmSeal k _ pt =>
          if k = env.machineKey then
            match pt with
            | .sessionDoc skey expiresAt =>
              if env.now > expiresAt then (.ok none, none)
              else (.ok (some skey), env.readResult)
            | _ => (.error "json unmarshal error", env.readResult)
          else (.ok none, none)
        | _ => (.ok none, none)

/-!
## Atomic save (src/unnamed/part_002, SaveVaultWithKey)

The filesystem holds the vault file at the target path and the unique
temporary file; the environment injects each fallible step's outcome.
The deferred cleanup (`remove the temp file if it still exists`) is
inlined at every return site after `CreateTemp`, mirroring Go's `defer`.
-/

/-- The two files `SaveVaultWithKey` touches. -/
structure SaveFS where
  target : Option MetaBytes
  tempExists : Bool
  tempContent : Option MetaBytes
deriving DecidableEq

/-- Injected outcomes for each fallible step before the rename. -/
structure SaveEnv where
  marshalResult : Except String AData
  jsonMetaOk : Bool
  mkdirOk : Bool
  createTempOk : Bool
  writeOk : Bool
  syncOk : Bool
  chmodOk : Bool
  renameOk : Bool

/-- `SaveVaultWithKey(path, vault, key)` from src/unnamed/part_002:
marshal, build the metadata envelope, create a unique temp file, write,
sync, chmod, then rename onto the target; any failure after the temp
file exists removes it (the deferred cleanup) and leaves the target
untouched. -/
def SaveVaultWithKey (env : SaveEnv) (vault : VaultV) (fs : SaveFS) :
    Except String Unit × SaveFS :=
  match env.marshalResult with
  | .error e => (.error e, fs)
  | .ok ciphertext =>
    let metadata := MetaBytes.metaJson vault.salt vault.kdfParams ciphertext
    if ¬ env.jsonMetaOk then (.error "json marshal error", fs)
    else if ¬ env.mkdirOk then (.error "mkdir error", fs)
    else if ¬ env.createTempOk then (.error "failed to create temp file", fs)
    else
      let fs1 : SaveFS := { fs with tempExists := true, tempContent := none }
      if ¬ env.writeOk then
        (.error "failed to write to temp file",
         { fs1 with tempExists := false, tempContent := none })
      else
        let fs2 : SaveFS := { fs1 with tempContent := some metadata }
        if ¬ env.syncOk then
          (.error "failed to sync temp file",
           { fs2 with tempExists := false, tempContent := none })
        else if ¬ env.chmodOk then
          (.error "failed to set permissions on temp file",
           { fs2 with tempExists := false, tempContent := none })
        else if ¬ env.renameOk then
          (.error "rename error", { fs2 with tempExists := false, tempContent := none })
        else
          (.ok (), { target := some metadata, tempExists := false, tempContent := none })

/-!
## Backup rotation (src/unnamed/part_001)

Backups are the `(timestamp, content)` pairs of the `path.<ts>.bak`
files; the fixed-width `20060102150405` timestamp format makes the
lexicographic filename order used by `sort.Strings` coincide with the
numeric timestamp order modelled here.
-/

/-- The directory state `CreateBackup` operates on. -/
structure BackupFS where
  vault : Option (List Nat)
  backups : List (Nat × List Nat)
deriving DecidableEq

/-- `copyFile` onto `path.<ts>.bak`: create-or-truncate semantics. -/
def insertBackup (ts : Nat) (content : List Nat) (bs : List (Nat × List Nat)) :
    List (Nat × List Nat) :=
  if bs.any (fun p => p.1 = ts) then
    bs.map (fun p => if p.1 = ts then (ts, content) else p)
  else bs ++ [(ts, content)]

/-- `cleanupOldBackups(vaultPath, maxBackups)` from src/unnamed/part_001:
glob the backups, keep them all if within the limit, otherwise sort by
filename and delete the oldest ones beyond the limit. -/
def cleanupOldBackups (maxBackups : Nat) (fs : BackupFS) : BackupFS :=
  let sorted := List.insertionSort (fun a b => a.1 ≤ b.1) fs.backups
  if sorted.length ≤ maxBackups then fs
  else { fs with backups := sorted.drop (sorted.length - maxBackups) }

/-- `CreateBackup(vaultPath, maxBackups)` from src/unnamed/part_001:
no-op when the vault file does not exist, otherwise copy it to a
timestamped backup and prune the oldest beyond the limit. -/
def CreateBackup (now : Nat) (maxBackups : Nat) (fs : BackupFS) : BackupFS :=
  match fs.vault with
  | none => fs
  | some content =>
    cleanupOldBackups maxBackups
      { fs with backups := insertBackup now content fs.backups }

/-- A sequence of `CreateBackup` calls: before each call the vault file
holds that call's content, and the call happens at that call's
timestamp. -/
def runBackups (maxBackups : Nat) (calls : List (Nat × List Nat)) (fs : BackupFS) :
    BackupFS :=
  calls.foldl (fun st c => CreateBackup c.1 maxBackups { st with vault := some c.2 }) fs

/-- C7 (amended): `Encrypt` and `Decrypt` fail fast with an explicit
error exactly when the key length is outside the sizes `aes.NewCipher`
accepts (16, 24 or 32 bytes); an accepted key is used whole — sealing
and opening under the same key round-trips, with no truncation or
padding. -/
theorem aes_key_size_gate (key : KeyV) (pt ct : AData) (nonce : List Nat) :
    (¬ aesKeySizeOk key →
      Encrypt pt key nonce = .error "crypto/aes: invalid key size" ∧
      Decrypt ct key = .error "crypto/aes: invalid key size") ∧
    (aesKeySizeOk key →
      Encrypt pt key nonce = .ok (.gcmSeal key nonce pt) ∧
      Decrypt (.gcmSeal key nonce pt) key = .ok pt) := by
  constructor
  · intro h
    unfold Encrypt Decrypt
    rw [if_neg h, if_neg h]
    exact ⟨rfl, rfl⟩
  · intro h
    unfold Encrypt Decrypt
    rw [if_pos h, if_pos h, if_neg (by unfold adataLen; omega)]
    simp

theorem aes_key_size_gate_witness :
    (Encrypt (.raw [1]) (.rawKey (List.replicate 17 0)) (List.replicate 12 0) =
        .error "crypto/aes: invalid key size" ∧
      Decrypt (.raw [9]) (.rawKey (List.replicate 17 0)) =
        .error "crypto/aes: invalid key size") ∧
    (Encrypt (.raw [1]) (.rawKey (List.replicate 32 0)) (List.replicate 12 0) =
        .ok (.gcmSeal (.rawKey (List.replicate 32 0)) (List.replicate 12 0) (.raw [1])) ∧
      Decrypt (.gcmSeal (.rawKey (List.replicate 32 0)) (List.replicate 12 0) (.raw [1]))
        (.rawKey (List.replicate 32 0)) = .ok (.raw [1])) :=
  ⟨(aes_key_size_gate (.rawKey (List.replicate 17 0)) (.raw [1]) (.raw [9])
      (List.replicate 12 0)).1 (by decide),
   (aes_key_size_gate (.rawKey (List.replicate 32 0)) (.raw [1]) (.raw [9])
      (List.replicate 12 0)).2 (by decide)⟩

/-- C7 counterexample: a 16-byte (128-bit) key is not 32 bytes, yet both
`Encrypt` and `Decrypt` accept it (Go's `aes.NewCipher` allows AES-128),
contradicting the claim that every non-32-byte key fails. -/
theorem aes_key16_accepted :
    keyLen (.rawKey (List.replicate 16 0)) ≠ 32 ∧
    Encrypt (.raw [1, 2, 3]) (.rawKey (List.replicate 16 0)) (List.replicate 12 0) =
      .ok (.gcmSeal (.rawKey (List.replicate 16 0)) (List.replicate 12 0) (.raw [1, 2, 3])) ∧
    Decrypt (.gcmSeal (.rawKey (List.replicate 16 0)) (List.replicate 12 0) (.raw [1, 2, 3]))
      (.rawKey (List.replicate 16 0)) = .ok (.raw [1, 2, 3]) := by
  refine ⟨by decide, ?_, ?_⟩ <;> decide

/-- C2: if `SaveVaultWithKey` fails at any step before the final rename
(marshalling, metadata serialization, directory creation, temp-file
creation, write, sync or chmod), the function returns an error, the
pre-existing vault file at the target path is unchanged, and the
temporary file does not survive the call. -/
theorem saveVault_pre_rename_failure (env : SaveEnv) (vault : VaultV) (fs : SaveFS)
    (hfresh : fs.tempExists = false)
    (hfail : (∃ e, env.marshalResult = .error e) ∨ env.jsonMetaOk = false ∨
      env.mkdirOk = false ∨ env.createTempOk = false ∨ env.writeOk = false ∨
      env.syncOk = false ∨ env.chmodOk = false) :
    (SaveVaultWithKey env vault fs).1.isOk = false ∧
    (SaveVaultWithKey env vault fs).2.target = fs.target ∧
    (SaveVaultWithKey env vault fs).2.tempExists = false := by
  obtain ⟨mr, jm, mk, ct, w, sy, ch, rn⟩ := env
  cases mr <;> cases jm <;> cases mk <;> cases ct <;> cases w <;> cases sy <;>
    cases ch <;> cases rn <;> simp_all [SaveVaultWithKey, Except.isOk, Except.toBool]

/-- Witness for C2: a write failure at a concrete input. -/
theorem saveVault_pre_rename_failure_witness :
    (SaveVaultWithKey ⟨.ok (.raw [1]), true, true, true, false, true, true, true⟩
        ⟨[1], DefaultArgon2Params, []⟩
        ⟨some (.metaJson [1] DefaultArgon2Params (.raw [2])), false, none⟩).1.isOk = false ∧
    (SaveVaultWithKey ⟨.ok (.raw [1]), true, true, true, false, true, true, true⟩
        ⟨[1], DefaultArgon2Params, []⟩
        ⟨some (.metaJson [1] DefaultArgon2Params (.raw [2])), false, none⟩).2.target =
      some (.metaJson [1] DefaultArgon2Params (.raw [2])) ∧
    (SaveVaultWithKey ⟨.ok (.raw [1]), true, true, true, false, true, true, true⟩
        ⟨[1], DefaultArgon2Params, []⟩
        ⟨some (.metaJson [1] DefaultArgon2Params (.raw [2])), false, none⟩).2.tempExists =
      false :=
  saveVault_pre_rename_failure _ _ _ rfl
    (Or.inr (Or.inr (Or.inr (Or.inr (Or.inl rfl)))))

/-- C3 counterexample: `LoadVault` (the password-based loader) performs
no empty-salt check — on a metadata envelope with an empty salt it
proceeds to key derivation and decryption, and here even succeeds,
rather than failing with the corrupted-vault condition. -/
theorem loadVault_empty_salt_no_check :
    LoadVault
      (.ok (.metaJson [] DefaultArgon2Params
        (.gcmSeal (DeriveKey [1] [] DefaultArgon2Params) (List.replicate 12 0)
          (.vaultDoc ⟨[], DefaultArgon2Params, [7]⟩)))) [1] =
      .ok ⟨[], DefaultArgon2Params, [7]⟩ := by
  decide

/-- C3 (amended): the empty-salt check lives only on the interactive
path — with no usable session, `LoadVaultInteractive` on a parsed
envelope whose salt is empty fails with the distinct corrupted-or-
incompatible-vault message before prompting, deriving or decrypting;
`LoadVault` performs no such check (see the counterexample). -/
theorem loadVaultInteractive_empty_salt (params : Argon2Params) (ct : AData)
    (promptResult : Except String (List Nat)) :
    LoadVaultInteractive none (.ok (.metaJson [] params ct)) promptResult =
      .error "vault file is corrupted or in an incompatible format (missing salt)" := by
  simp [LoadVaultInteractive]

/-- Witness for the amended C3 at a concrete input. -/
theorem loadVaultInteractive_empty_salt_witness :
    LoadVaultInteractive none (.ok (.metaJson [] DefaultArgon2Params (.raw [1])))
        (.ok [2]) =
      .error "vault file is corrupted or in an incompatible format (missing salt)" :=
  loadVaultInteractive_empty_salt DefaultArgon2Params (.raw [1]) (.ok [2])

/-- C9 counterexample: a read failure other than file-not-found (for
example permission denied) is returned to the caller as an error, so
`GetSession` does not silently degrade every failure to "no session". -/
theorem getSession_never_errors_is_false :
    GetSession ⟨true, some (.error "read permission denied"), .rawKey (List.replicate 32 0), 0⟩ =
      (.error "read permission denied", some (.error "read permission denied")) := by
  decide

/-- C9 (amended): `GetSession` silently degrades the documented cases —
a missing file returns no key; an AEAD decryption failure deletes the
stale file and returns no key; an expired session deletes the file and
returns no key; a live session returns the key — but other read errors,
too-short blobs and malformed session JSON are returned as errors. -/
theorem getSession_amended (env : SessEnv) (hpath : env.pathOk = true)
    (hmk : keyLen env.machineKey = 32) :
    (env.readResult = none → GetSession env = (.ok none, none)) ∧
    (∀ k nonce pt, env.readResult = some (.ok (.gcmSeal k nonce pt)) →
      k ≠ env.machineKey → GetSession env = (.ok none, none)) ∧
    (∀ nonce skey expiresAt,
      env.readResult = some (.ok (.gcmSeal env.machineKey nonce (.sessionDoc skey expiresAt))) →
      env.now > expiresAt → GetSession env = (.ok none, none)) ∧
    (∀ nonce skey expiresAt,
      env.readResult = some (.ok (.gcmSeal env.machineKey nonce (.sessionDoc skey expiresAt))) →
      ¬ env.now > expiresAt → GetSession env = (.ok (some skey), env.readResult)) ∧
    (∀ e, env.readResult = some (.error e) → GetSession env = (.error e, env.readResult)) ∧
    (∀ bs, env.readResult = some (.ok (.raw bs)) → bs.length < 12 →
      GetSession env = (.error "ciphertext too short", env.readResult)) := by
  have hks : aesKeySizeOk env.machineKey := Or.inr (Or.inr hmk)
  refine ⟨?_, ?_, ?_, ?_, ?_, ?_⟩
  · intro h
    simp [GetSession, hpath, h]
  · intro k nonce pt h hne
    simp [GetSession, hpath, h, hks, adataLen, hne]
  · intro nonce skey expiresAt h hexp
    simp [GetSession, hpath, h, hks, adataLen, hexp]
  · intro nonce skey expiresAt h hexp
    simp [GetSession, hpath, h, hks, adataLen, hexp]
  · intro e h
    simp [GetSession, hpath, h]
  · intro bs h hlen
    simp [GetSession, hpath, h, hks, adataLen, hlen]

/-- Witness for the amended C9 at concrete inputs. -/
theorem getSession_amended_witness :
    GetSession ⟨true, none, .rawKey (List.replicate 32 0), 5⟩ = (.ok none, none) ∧
    GetSession ⟨true, some (.ok (.gcmSeal (.rawKey (List.replicate 32 1))
        (List.replicate 12 0) (.sessionDoc [9] 99))),
      .rawKey (List.replicate 32 0), 5⟩ = (.ok none, none) ∧
    GetSession ⟨true, some (.ok (.gcmSeal (.rawKey (List.replicate 32 0))
        (List.replicate 12 0) (.sessionDoc [9] 3))),
      .rawKey (List.replicate 32 0), 5⟩ = (.ok none, none) ∧
    GetSession ⟨true, some (.ok (.gcmSeal (.rawKey (List.replicate 32 0))
        (List.replicate 12 0) (.sessionDoc [9] 7))),
      .rawKey (List.replicate 32 0), 5⟩ =
      (.ok (some [9]), some (.ok (.gcmSeal (.rawKey (List.replicate 32 0))
        (List.replicate 12 0) (.sessionDoc [9] 7)))) :=
  ⟨(getSession_amended _ rfl (by decide)).1 rfl,
   (getSession_amended _ rfl (by decide)).2.1 _ _ _ rfl (by decide),
   (getSession_amended _ rfl (by decide)).2.2.1 _ _ _ rfl (by decide),
   (getSession_amended _ rfl (by decide)).2.2.2.1 _ _ _ rfl (by decide)⟩

theorem insertBackup_of_lt (t : Nat) (c : List Nat) (bs : List (Nat × List Nat))
    (h : ∀ p ∈ bs, p.1 < t) : insertBackup t c bs = bs ++ [(t, c)] := by
  unfold insertBackup
  rw [if_neg]
  simp only [List.any_eq_true, decide_eq_true_eq, not_exists, not_and]
  intro p hp
  have := h p hp
  omega

theorem sorted_le_append (t : Nat) (c : List Nat) (bs : List (Nat × List Nat))
    (hp : List.Pairwise (fun a b : Nat × List Nat => a.1 < b.1) bs)
    (h : ∀ p ∈ bs, p.1 < t) :
    List.Sorted (fun a b : Nat × List Nat => a.1 ≤ b.1) (bs ++ [(t, c)]) := by
  show List.Pairwise _ _
  rw [List.pairwise_append]
  refine ⟨hp.imp (fun hab => le_of_lt hab), List.pairwise_singleton _ _, ?_⟩
  intro a ha b hb
  simp only [List.mem_singleton] at hb
  subst hb
  exact le_of_lt (h a ha)

theorem cleanup_sorted (maxB : Nat) (v : Option (List Nat)) (t : Nat) (c : List Nat)
    (bs : List (Nat × List Nat))
    (hp : List.Pairwise (fun a b : Nat × List Nat => a.1 < b.1) bs)
    (h : ∀ p ∈ bs, p.1 < t) :
    cleanupOldBackups maxB ⟨v, bs ++ [(t, c)]⟩ =
      ⟨v, (bs ++ [(t, c)]).drop (bs.length + 1 - maxB)⟩ := by
  unfold cleanupOldBackups
  rw [List.Sorted.insertionSort_eq (sorted_le_append t c bs hp h)]
  simp only [List.length_append, List.length_cons, List.length_nil]
  split
  · rename_i hle
    have h0 : bs.length + 1 - maxB = 0 := by omega
    rw [h0, List.drop_zero]
  · rfl

theorem runBackups_suffix : ∀ (calls : List (Nat × List Nat)) (maxB : Nat)
    (v0 : Option (List Nat)) (pre : List (Nat × List Nat)),
    List.Pairwise (fun a b : Nat × List Nat => a.1 < b.1) pre →
    (∀ p ∈ pre, ∀ c ∈ calls, p.1 < c.1) →
    List.Pairwise (fun a b : Nat × List Nat => a.1 < b.1) calls →
    pre.length ≤ maxB →
    (runBackups maxB calls ⟨v0, pre⟩).backups =
      (pre ++ calls).drop (pre.length + calls.length - maxB) := by
  intro calls
  induction calls with
  | nil =>
    intro maxB v0 pre _ _ _ hlen
    have h0 : pre.length + ([] : List (Nat × List Nat)).length - maxB = 0 := by
      simp only [List.length_nil]; omega
    rw [h0]
    simp [runBackups]
  | cons hd rest ih =>
    intro maxB v0 pre hpre hbound hcalls hlen
    obtain ⟨t, c⟩ := hd
    have hblt : ∀ p ∈ pre, p.1 < t := fun p hp =>
      hbound p hp (t, c) (List.mem_cons_self _ _)
    have hstep : runBackups maxB ((t, c) :: rest) ⟨v0, pre⟩ =
        runBackups maxB rest
          (CreateBackup t maxB ⟨some c, pre⟩) := by
      simp [runBackups, List.foldl]
    rw [hstep]
    have hcb : CreateBackup t maxB ⟨some c, pre⟩ =
        ⟨some c, (pre ++ [(t, c)]).drop (pre.length + 1 - maxB)⟩ := by
      unfold CreateBackup
      simp only []
      rw [insertBackup_of_lt t c pre hblt]
      exact cleanup_sorted maxB (some c) t c pre hpre hblt
    rw [hcb]
    have hk : pre.length + 1 - maxB ≤ (pre ++ [(t, c)]).length := by
      simp only [List.length_append, List.length_cons, List.length_nil]; omega
    have hpre' : List.Pairwise (fun a b : Nat × List Nat => a.1 < b.1)
        ((pre ++ [(t, c)]).drop (pre.length + 1 - maxB)) := by
      refine List.Pairwise.sublist (List.drop_sublist _ _) ?_
      rw [List.pairwise_append]
      refine ⟨hpre, List.pairwise_singleton _ _, ?_⟩
      intro a ha b hb
      simp only [List.mem_singleton] at hb
      subst hb
      exact hblt a ha
    have hbound' : ∀ p ∈ (pre ++ [(t, c)]).drop (pre.length + 1 - maxB),
        ∀ c' ∈ rest, p.1 < c'.1 := by
      intro p hp c' hc'
      have hpmem : p ∈ pre ++ [(t, c)] := List.mem_of_mem_drop hp
      rcases List.mem_append.mp hpmem with hmem | hmem
      · exact hbound p hmem c' (List.mem_cons_of_mem _ hc')
      · simp only [List.mem_singleton] at hmem
        subst hmem
        exact (List.pairwise_cons.mp hcalls).1 c' hc'
    have hlen' : ((pre ++ [(t, c)]).drop (pre.length + 1 - maxB)).length ≤ maxB := by
      rw [List.length_drop]
      simp only [List.length_append, List.length_cons, List.length_nil]
      omega
    rw [ih maxB (some c) _ hpre' hbound' (List.pairwise_cons.mp hcalls).2 hlen']
    rw [List.length_drop]
    rw [← List.drop_append_of_le_length hk, List.drop_drop]
    have hshape : (pre ++ [(t, c)]) ++ rest = pre ++ (t, c) :: rest := by simp
    rw [hshape]
    congr 1
    simp only [List.length_append, List.length_cons, List.length_nil]
    omega

/-- C8: `CreateBackup` is a no-op when the vault file does not exist;
otherwise it copies the file to a timestamped backup, and over any
sequence of calls with strictly increasing timestamps the surviving
backups are exactly the most recent ones — `max_backups` many once the
call count exceeds the limit. -/
theorem createBackup_rotation :
    (∀ now maxB fs, fs.vault = none → CreateBackup now maxB fs = fs) ∧
    (∀ (calls : List (Nat × List Nat)) (maxB : Nat) (v0 : Option (List Nat)),
      List.Pairwise (fun a b : Nat × List Nat => a.1 < b.1) calls →
      (runBackups maxB calls ⟨v0, []⟩).backups = calls.drop (calls.length - maxB) ∧
      (maxB < calls.length →
        (runBackups maxB calls ⟨v0, []⟩).backups.length = maxB)) := by
  constructor
  · rintro now maxB ⟨v, bs⟩ h
    simp only at h
    subst h
    rfl
  · intro calls maxB v0 hcalls
    have h := runBackups_suffix calls maxB v0 [] List.Pairwise.nil (by simp) hcalls
      (by simp)
    simp only [List.nil_append, List.length_nil, Nat.zero_add] at h
    refine ⟨h, ?_⟩
    intro hlt
    rw [h, List.length_drop]
    omega

/-- Witness for C8: three calls with limit 2 keep the two newest. -/
theorem createBackup_rotation_witness :
    CreateBackup 5 3 ⟨none, [(1, [9])]⟩ = ⟨none, [(1, [9])]⟩ ∧
    (runBackups 2 [(1, [10]), (2, [20]), (3, [30])] ⟨none, []⟩).backups =
      [(2, [20]), (3, [30])] ∧
    (runBackups 2 [(1, [10]), (2, [20]), (3, [30])] ⟨none, []⟩).backups.length = 2 := by
  refine ⟨createBackup_rotation.1 5 3 ⟨none, [(1, [9])]⟩ rfl, ?_,
    (createBackup_rotation.2 [(1, [10]), (2, [20]), (3, [30])] 2 none (by decide)).2
      (by simp)⟩
  rw [(createBackup_rotation.2 [(1, [10]), (2, [20]), (3, [30])] 2 none (by decide)).1]
  rfl

end Gotp
